import Mathlib

/-
  Shallow embedding of impressto/hex_to_image
  (src/src/components/HexToImageConverter.tsx).

  Pure core functions of the converter — `rgb565ToRgb`, the dimension
  inference inside `parseHexFile`, the hex extraction/parsing tiers of
  `parseHexFile`, and `createBMP` — are translated into executable Lean
  definitions over Nat / List Char / List Nat, and the specification's
  claims about them are settled as theorems.
-/

namespace HexToImage

/-! ## ColorConverter: rgb565ToRgb (HexToImageConverter.tsx lines 149-160) -/

/-- Translation of `rgb565ToRgb`: extract the three RGB565 fields with
shifts and masks, then expand each to 8 bits by bit replication. -/
def rgb565ToRgb (rgb565 : Nat) : Nat × Nat × Nat :=
  let r := (rgb565 >>> 11) &&& 0x1F
  let g := (rgb565 >>> 5) &&& 0x3F
  let b := rgb565 &&& 0x1F
  let r8 := (r <<< 3) ||| (r >>> 2)
  let g8 := (g <<< 2) ||| (g >>> 4)
  let b8 := (b <<< 3) ||| (b >>> 2)
  (r8, g8, b8)

/-! ## DimensionResolver (HexToImageConverter.tsx lines 104-139) -/

/-- The fixed table `commonResolutions` from `parseHexFile`. -/
def commonResolutions : List (Nat × Nat) :=
  [(128, 128), (64, 64), (32, 32), (16, 16),
   (320, 240), (240, 320), (128, 160), (160, 128),
   (128, 64), (64, 128), (96, 64), (64, 96)]

/-- Newton iteration for the integer square root, with explicit fuel so
that the kernel can evaluate it (same algorithm as `Nat.sqrt`). -/
def sqrtIter (n : Nat) : Nat → Nat → Nat
  | 0, guess => guess
  | fuel + 1, guess =>
    let next := (guess + n / guess) / 2
    if next < guess then sqrtIter n fuel next else guess

/-- `Math.floor (Math.sqrt n)` on a natural number: the integer square
root (exact for every pixel count that fits a 64-bit float). -/
def intSqrt (n : Nat) : Nat :=
  if n ≤ 1 then n else sqrtIter n n (n / 2)

/-- `Math.ceil (Math.sqrt n)` on a natural number. -/
def ceilSqrt (n : Nat) : Nat :=
  if intSqrt n * intSqrt n = n then intSqrt n else intSqrt n + 1

/-- The candidate list `possibleDimensions`: the base list is
square / single row / single column (already floored: the square entry
stores `Math.floor (Math.sqrt n)`), and every table entry whose product
equals `totalPixels` is prepended in turn (`forEach` + `unshift`). -/
def possibleDimensions (totalPixels : Nat) : List (Nat × Nat) :=
  commonResolutions.foldl
    (fun acc res => if res.1 * res.2 = totalPixels then res :: acc else acc)
    [(intSqrt totalPixels, intSqrt totalPixels), (totalPixels, 1), (1, totalPixels)]

/-- Fallback dimension `(ceil √n, ceil (n / ceil √n))` used when no
candidate's product matches. -/
def fallbackDimension (totalPixels : Nat) : Nat × Nat :=
  (ceilSqrt totalPixels,
   (totalPixels + ceilSqrt totalPixels - 1) / ceilSqrt totalPixels)

/-- The dimension selection of `parseHexFile`: first candidate whose
product is exactly `totalPixels`, else the fallback; then the final
safety net forcing `(totalPixels, 1)` when the product is still off. -/
def resolveDims (totalPixels : Nat) : Nat × Nat :=
  let dimension :=
    ((possibleDimensions totalPixels).find? (fun d => d.1 * d.2 == totalPixels)).getD
      (fallbackDimension totalPixels)
  if dimension.1 * dimension.2 != totalPixels then (totalPixels, 1) else dimension

/-! ### Bounds helpers for the 5/6-bit expansions -/

lemma expand5_le (r : Nat) (h : r ≤ 31) : ((r <<< 3) ||| (r >>> 2)) ≤ 255 := by
  interval_cases r <;> decide

lemma expand6_le (g : Nat) (h : g ≤ 63) : ((g <<< 2) ||| (g >>> 4)) ≤ 255 := by
  interval_cases g <;> decide

/-! ### Claim theorems: C1, C2, C5, C6 -/

/-- C1 (counterexample): the code's bit replication sends 0xF800 to
(255,0,0), not (248,0,0) as the claim states. -/
theorem rgb565ToRgb_F800_not_248 : rgb565ToRgb 0xF800 ≠ (248, 0, 0) := by
  decide

/-- C1 (amended): for every 16-bit input the components are within
[0,255], and the canonical inputs map to the full-scale values
0xF800→(255,0,0), 0x07E0→(0,255,0), 0x001F→(0,0,255),
0xFFFF→(255,255,255), 0x0000→(0,0,0). -/
theorem rgb565ToRgb_bounded_and_canonical (c : Nat) (h : c < 65536) :
    ((rgb565ToRgb c).1 ≤ 255 ∧ (rgb565ToRgb c).2.1 ≤ 255 ∧ (rgb565ToRgb c).2.2 ≤ 255)
    ∧ rgb565ToRgb 0xF800 = (255, 0, 0)
    ∧ rgb565ToRgb 0x07E0 = (0, 255, 0)
    ∧ rgb565ToRgb 0x001F = (0, 0, 255)
    ∧ rgb565ToRgb 0xFFFF = (255, 255, 255)
    ∧ rgb565ToRgb 0x0000 = (0, 0, 0) := by
  refine ⟨⟨?_, ?_, ?_⟩, by decide, by decide, by decide, by decide, by decide⟩
  · exact expand5_le _ (Nat.and_le_right)
  · exact expand6_le _ (Nat.and_le_right)
  · exact expand5_le _ (Nat.and_le_right)

/-- Witness for C1's theorem at the concrete input 0xF800. -/
theorem rgb565ToRgb_bounded_and_canonical_witness :
    (rgb565ToRgb 0xF800).1 ≤ 255 :=
  (rgb565ToRgb_bounded_and_canonical 0xF800 (by decide)).1.1

/-- C2: for every 16-bit input, `rgb565ToRgb` extracts bits 15–11,
10–5 and 4–0 (expressed as division/modulus by powers of two) and
returns exactly the bit-replication expansions
(r5 <<< 3) ||| (r5 >>> 2), (g6 <<< 2) ||| (g6 >>> 4),
(b5 <<< 3) ||| (b5 >>> 2). -/
theorem rgb565ToRgb_bit_layout (c : Nat) (h : c < 65536) :
    rgb565ToRgb c =
      ((((c / 2 ^ 11) % 2 ^ 5) <<< 3) ||| (((c / 2 ^ 11) % 2 ^ 5) >>> 2),
       (((c / 2 ^ 5) % 2 ^ 6) <<< 2) ||| (((c / 2 ^ 5) % 2 ^ 6) >>> 4),
       ((c % 2 ^ 5) <<< 3) ||| ((c % 2 ^ 5) >>> 2)) := by
  have h5 : (0x1F : Nat) = 2 ^ 5 - 1 := by norm_num
  have h6 : (0x3F : Nat) = 2 ^ 6 - 1 := by norm_num
  simp only [rgb565ToRgb, h5, h6, Nat.and_pow_two_sub_one_eq_mod,
    Nat.shiftRight_eq_div_pow]

/-- Witness for C2's theorem at the concrete input 0x07E0. -/
theorem rgb565ToRgb_bit_layout_witness :
    rgb565ToRgb 0x07E0 =
      ((((0x07E0 / 2 ^ 11) % 2 ^ 5) <<< 3) ||| (((0x07E0 / 2 ^ 11) % 2 ^ 5) >>> 2),
       (((0x07E0 / 2 ^ 5) % 2 ^ 6) <<< 2) ||| (((0x07E0 / 2 ^ 5) % 2 ^ 6) >>> 4),
       ((0x07E0 % 2 ^ 5) <<< 3) ||| ((0x07E0 % 2 ^ 5) >>> 2)) :=
  rgb565ToRgb_bit_layout 0x07E0 (by decide)

/-- C5 (counterexample): for N = 20480 the resolver returns (160,128),
not (128,160): both table entries match and each is prepended in turn,
so the later entry 160×128 ends up first. -/
theorem resolveDims_20480_not_128_160 : resolveDims 20480 ≠ (128, 160) := by
  decide

/-- C5 (amended): the fixed resolution table is preferred over generic
shapes: for N = 20480 the result is the table match (160,128) — the
last matching table entry, since each match is prepended — and for
N = 64, which matches no table entry, the result is the square (8,8). -/
theorem resolveDims_table_preference :
    resolveDims 20480 = (160, 128) ∧ resolveDims 64 = (8, 8) := by
  constructor <;> decide

/-- C6: for every pixel count N ≥ 1, the resolver returns positive
width and height whose product is exactly N. -/
theorem resolveDims_invariant (n : Nat) (h : 1 ≤ n) :
    1 ≤ (resolveDims n).1 ∧ 1 ≤ (resolveDims n).2 ∧
      (resolveDims n).1 * (resolveDims n).2 = n := by
  unfold resolveDims
  set d := ((possibleDimensions n).find? (fun d => d.1 * d.2 == n)).getD
      (fallbackDimension n) with hd
  rcases eq_or_ne (d.1 * d.2) n with hp | hp
  · have hcond : (d.1 * d.2 != n) = false := by simp [bne_iff_ne, hp]
    simp only [hcond, Bool.false_eq_true, if_false]
    have h1 : 1 ≤ d.1 := by
      rcases Nat.eq_zero_or_pos d.1 with h0 | h0
      · rw [h0, Nat.zero_mul] at hp; omega
      · exact h0
    have h2 : 1 ≤ d.2 := by
      rcases Nat.eq_zero_or_pos d.2 with h0 | h0
      · rw [h0, Nat.mul_zero] at hp; omega
      · exact h0
    exact ⟨h1, h2, hp⟩
  · have hcond : (d.1 * d.2 != n) = true := by simp [bne_iff_ne, hp]
    simp only [hcond, if_true]
    exact ⟨h, le_refl 1, Nat.mul_one n⟩

/-- Witness for C6's theorem at the concrete count 7. -/
theorem resolveDims_invariant_witness :
    1 ≤ (resolveDims 7).1 ∧ 1 ≤ (resolveDims 7).2 ∧
      (resolveDims 7).1 * (resolveDims 7).2 = 7 :=
  resolveDims_invariant 7 (by decide)

/-! ## BmpEncoder: createBMP (HexToImageConverter.tsx lines 162-216) -/

/-- The `ImageData` record produced by `parseHexFile`. -/
structure ImageData where
  width : Nat
  height : Nat
  data : List Nat
  name : List Char
deriving DecidableEq

/-- Two bytes of a 16-bit little-endian field (`DataView.setUint16`
with `littleEndian = true`). -/
def le16 (v : Nat) : List Nat := [v % 256, v / 2 ^ 8 % 256]

/-- Four bytes of a 32-bit little-endian field (`DataView.setUint32` /
`setInt32` with `littleEndian = true`, on a non-negative value). -/
def le32 (v : Nat) : List Nat :=
  [v % 256, v / 2 ^ 8 % 256, v / 2 ^ 16 % 256, v / 2 ^ 24 % 256]

/-- `paddingSize` from `createBMP`: rows are padded to 4-byte
boundaries. -/
def paddingSize (width : Nat) : Nat := (4 - (width * 3) % 4) % 4

/-- `rowSize` from `createBMP`. -/
def rowSize (width : Nat) : Nat := width * 3 + paddingSize width

/-- `imageSize` from `createBMP`. -/
def imageSize (img : ImageData) : Nat := rowSize img.width * img.height

/-- `fileSize` from `createBMP`: 54 header bytes plus the pixel data. -/
def fileSize (img : ImageData) : Nat := 54 + imageSize img

/-- The 54 header bytes written by `createBMP` at offsets 0..53, in
order: the field at offset 0 is `setUint16(0, 0x424D, true)`, i.e. the
little-endian bytes of 0x424D. -/
def bmpHeader (img : ImageData) : List Nat :=
  le16 0x424D ++ le32 (fileSize img) ++ le32 0 ++ le32 54 ++
  le32 40 ++ le32 img.width ++ le32 img.height ++ le16 1 ++ le16 24 ++
  le32 0 ++ le32 (imageSize img) ++ le32 2835 ++ le32 2835 ++ le32 0 ++ le32 0

/-- The three bytes written for one pixel: Blue, Green, Red of the
converted color when `pixelIndex < data.length`, else black. -/
def pixelBytes (data : List Nat) (pixelIndex : Nat) : List Nat :=
  if pixelIndex < data.length then
    let rgb := rgb565ToRgb (data.getD pixelIndex 0)
    [rgb.2.2, rgb.2.1, rgb.1]
  else
    [0, 0, 0]

/-- The bytes written for row `y`: the pixels left to right, then the
padding bytes (value 0). -/
def rowBytes (data : List Nat) (width y : Nat) : List Nat :=
  ((List.range width).map (fun x => pixelBytes data (y * width + x))).flatten
    ++ List.replicate (paddingSize width) 0

/-- The pixel data: rows from `y = height - 1` down to `y = 0`. -/
def pixelArray (img : ImageData) : List Nat :=
  ((List.range img.height).map
    (fun i => rowBytes img.data img.width (img.height - 1 - i))).flatten

/-- Translation of `createBMP`: the full byte sequence. -/
def createBMP (img : ImageData) : List Nat := bmpHeader img ++ pixelArray img

/-! ### Length and indexing lemmas for the BMP byte list -/

lemma length_le16 (v : Nat) : (le16 v).length = 2 := rfl

lemma length_le32 (v : Nat) : (le32 v).length = 4 := rfl

lemma length_bmpHeader (img : ImageData) : (bmpHeader img).length = 54 := by
  simp [bmpHeader, le16, le32]

lemma length_pixelBytes (data : List Nat) (i : Nat) :
    (pixelBytes data i).length = 3 := by
  unfold pixelBytes
  split <;> simp

lemma length_rowBytes (data : List Nat) (width y : Nat) :
    (rowBytes data width y).length = rowSize width := by
  simp only [rowBytes, rowSize, List.length_append, List.length_replicate,
    List.length_flatten, List.map_map]
  have : ((List.range width).map
      (List.length ∘ fun x => pixelBytes data (y * width + x))) =
      (List.range width).map (fun _ => 3) := by
    apply List.map_congr_left
    intro x _
    simp [length_pixelBytes]
  rw [this]
  simp [List.map_const', mul_comm]

lemma length_pixelArray (img : ImageData) :
    (pixelArray img).length = rowSize img.width * img.height := by
  simp only [pixelArray, List.length_flatten, List.map_map]
  have : ((List.range img.height).map
      (List.length ∘ fun i => rowBytes img.data img.width (img.height - 1 - i))) =
      (List.range img.height).map (fun _ => rowSize img.width) := by
    apply List.map_congr_left
    intro i _
    simp [length_rowBytes]
  rw [this]
  simp [List.map_const', mul_comm]

lemma length_createBMP (img : ImageData) :
    (createBMP img).length = 54 + rowSize img.width * img.height := by
  simp [createBMP, length_bmpHeader, length_pixelArray]

lemma getD_append_left (a b : List Nat) (n : Nat) (h : n < a.length) :
    (a ++ b).getD n 0 = a.getD n 0 := by
  simp [List.getD_eq_getElem?_getD, List.getElem?_append_left h]

lemma getD_append_right (a b : List Nat) (n : Nat) :
    (a ++ b).getD (a.length + n) 0 = b.getD n 0 := by
  simp [List.getD_eq_getElem?_getD, List.getElem?_append_right (Nat.le_add_right _ _)]

/-- Indexing into a concatenation of blocks of uniform length `L`. -/
lemma join_getD_uniform (L : Nat) :
    ∀ (ls : List (List Nat)) (i o : Nat), (∀ l ∈ ls, l.length = L) →
      i < ls.length → o < L →
      ls.flatten.getD (i * L + o) 0 = (ls.getD i []).getD o 0 := by
  intro ls
  induction ls with
  | nil => intro i o _ hi _; simp at hi
  | cons head tail ih =>
    intro i o hall hi ho
    cases i with
    | zero =>
      have hlen : head.length = L := hall head (List.mem_cons_self _ _)
      rw [List.flatten_cons, Nat.zero_mul, Nat.zero_add,
        getD_append_left _ _ o (by rw [hlen]; exact ho)]
      rfl
    | succ m =>
      have hlen : head.length = L := hall head (List.mem_cons_self _ _)
      have harith : (m + 1) * L + o = head.length + (m * L + o) := by
        rw [hlen]; ring
      rw [List.flatten_cons, harith, getD_append_right]
      have := ih m o (fun l hl => hall l (List.mem_cons_of_mem _ hl))
        (by simpa using hi) ho
      rw [this]
      rfl

/-- A byte inside the pixel area of the BMP, addressed by row position
`i` (from the top of the stored, bottom-up pixel area) and offset `o`
within the row. -/
lemma createBMP_getD_row (img : ImageData) (i o : Nat)
    (hi : i < img.height) (ho : o < rowSize img.width) :
    (createBMP img).getD (54 + i * rowSize img.width + o) 0 =
      (rowBytes img.data img.width (img.height - 1 - i)).getD o 0 := by
  unfold createBMP
  have h54 : (54 : Nat) + i * rowSize img.width + o =
      (bmpHeader img).length + (i * rowSize img.width + o) := by
    rw [length_bmpHeader]; ring
  rw [h54, getD_append_right]
  unfold pixelArray
  rw [join_getD_uniform (rowSize img.width) _ i o
    (by intro l hl
        rcases List.mem_map.mp hl with ⟨j, _, rfl⟩
        exact length_rowBytes _ _ _)
    (by simpa using hi) ho]
  congr 1
  rw [List.getD_eq_getElem?_getD, List.getElem?_map]
  simp [List.getElem?_range hi]

/-- A byte inside the pixel part of one row. -/
lemma rowBytes_getD_pixel (data : List Nat) (width y x j : Nat)
    (hx : x < width) (hj : j < 3) :
    (rowBytes data width y).getD (3 * x + j) 0 =
      (pixelBytes data (y * width + x)).getD j 0 := by
  unfold rowBytes
  have hlt : 3 * x + j <
      (((List.range width).map (fun x => pixelBytes data (y * width + x))).flatten).length := by
    rw [List.length_flatten, List.map_map]
    have : ((List.range width).map
        (List.length ∘ fun x => pixelBytes data (y * width + x))) =
        (List.range width).map (fun _ => 3) := by
      apply List.map_congr_left
      intro z _
      simp [length_pixelBytes]
    rw [this]
    simp only [List.map_const', List.sum_replicate, List.length_range, smul_eq_mul]
    calc 3 * x + j < 3 * x + 3 := by omega
    _ = 3 * (x + 1) := by ring
    _ ≤ 3 * width := by omega
    _ = width * 3 := by ring
  rw [getD_append_left _ _ _ hlt]
  have := join_getD_uniform 3
    ((List.range width).map (fun x => pixelBytes data (y * width + x))) x j
    (by intro l hl
        rcases List.mem_map.mp hl with ⟨z, _, rfl⟩
        exact length_pixelBytes _ _)
    (by simpa using hx) hj
  rw [mul_comm x 3] at this
  rw [this]
  congr 1
  rw [List.getD_eq_getElem?_getD, List.getElem?_map]
  simp [List.getElem?_range hx]

/-- A padding byte of one row is zero. -/
lemma rowBytes_getD_padding (data : List Nat) (width y p : Nat)
    (hp : p < paddingSize width) :
    (rowBytes data width y).getD (width * 3 + p) 0 = 0 := by
  unfold rowBytes
  have hlen : (((List.range width).map
      (fun x => pixelBytes data (y * width + x))).flatten).length = width * 3 := by
    rw [List.length_flatten, List.map_map]
    have : ((List.range width).map
        (List.length ∘ fun x => pixelBytes data (y * width + x))) =
        (List.range width).map (fun _ => 3) := by
      apply List.map_congr_left
      intro z _
      simp [length_pixelBytes]
    rw [this]
    simp [List.map_const', mul_comm]
  rw [← hlen, getD_append_right, List.getD_eq_getElem?_getD]
  have : p < (List.replicate (paddingSize width) (0 : Nat)).length := by
    simpa using hp
  rw [List.getElem?_eq_getElem this]
  simp [List.getElem_replicate]

/-- A pixel byte of the encoded BMP: row `y`, column `x`, byte `j` of
the pixel (0 = Blue, 1 = Green, 2 = Red). The row for `y` is stored at
row position `height - 1 - y` (bottom-up order). -/
lemma createBMP_pixel_byte (img : ImageData) (y x j : Nat)
    (hy : y < img.height) (hx : x < img.width) (hj : j < 3) :
    (createBMP img).getD
        (54 + (img.height - 1 - y) * rowSize img.width + (3 * x + j)) 0 =
      (pixelBytes img.data (y * img.width + x)).getD j 0 := by
  have hi : img.height - 1 - y < img.height := by omega
  have ho : 3 * x + j < rowSize img.width := by
    unfold rowSize
    have : 3 * x + j < 3 * (x + 1) := by omega
    have hx3 : 3 * (x + 1) ≤ 3 * img.width := by omega
    omega
  rw [createBMP_getD_row img _ _ hi ho]
  have hyy : img.height - 1 - (img.height - 1 - y) = y := by omega
  rw [hyy]
  exact rowBytes_getD_pixel img.data img.width y x j hx hj

/-! ### Claim theorems: C3, C4, C9 -/

/-- C3 (code evaluation at the failing input): on the 1×1 image with
one pixel, the first two bytes of the encoded file are 0x4D 0x42
("MB"), because `setUint16(0, 0x424D, true)` stores the low byte 0x4D
first — not 0x42 0x4D ("BM") as the claim (and the BMP format, and the
code's own comment) require. -/
theorem createBMP_signature_bytes_swapped :
    (createBMP ⟨1, 1, [0], []⟩).getD 0 0 = 0x4D ∧
    (createBMP ⟨1, 1, [0], []⟩).getD 1 0 = 0x42 := by
  constructor <;> decide

/-- C4: the encoded file has total length
54 + (width*3 + padding) * height; pixel rows start at byte offset 54
with the bottom row (y = height−1) first and the top row (y = 0) last;
within a row pixels go left to right, each written as Blue, Green, Red
of the converted color; and each row's padding bytes are zero. -/
theorem createBMP_layout (img : ImageData)
    (hw : 1 ≤ img.width) (hh : 1 ≤ img.height) :
    (createBMP img).length = 54 + (img.width * 3 + paddingSize img.width) * img.height
    ∧ (∀ y x, y < img.height → x < img.width → y * img.width + x < img.data.length →
        (createBMP img).getD
            (54 + (img.height - 1 - y) * rowSize img.width + 3 * x) 0
          = (rgb565ToRgb (img.data.getD (y * img.width + x) 0)).2.2
        ∧ (createBMP img).getD
            (54 + (img.height - 1 - y) * rowSize img.width + 3 * x + 1) 0
          = (rgb565ToRgb (img.data.getD (y * img.width + x) 0)).2.1
        ∧ (createBMP img).getD
            (54 + (img.height - 1 - y) * rowSize img.width + 3 * x + 2) 0
          = (rgb565ToRgb (img.data.getD (y * img.width + x) 0)).1)
    ∧ (∀ i p, i < img.height → p < paddingSize img.width →
        (createBMP img).getD (54 + i * rowSize img.width + (img.width * 3 + p)) 0 = 0) := by
  refine ⟨?_, ?_, ?_⟩
  · rw [length_createBMP]; rfl
  · intro y x hy hx hdata
    have h0 : 54 + (img.height - 1 - y) * rowSize img.width + 3 * x =
        54 + (img.height - 1 - y) * rowSize img.width + (3 * x + 0) := by ring
    have h1 : 54 + (img.height - 1 - y) * rowSize img.width + 3 * x + 1 =
        54 + (img.height - 1 - y) * rowSize img.width + (3 * x + 1) := by ring
    have h2 : 54 + (img.height - 1 - y) * rowSize img.width + 3 * x + 2 =
        54 + (img.height - 1 - y) * rowSize img.width + (3 * x + 2) := by ring
    rw [h2, h1, h0,
      createBMP_pixel_byte img y x 0 hy hx (by omega),
      createBMP_pixel_byte img y x 1 hy hx (by omega),
      createBMP_pixel_byte img y x 2 hy hx (by omega)]
    unfold pixelBytes
    rw [if_pos hdata]
    exact ⟨rfl, rfl, rfl⟩
  · intro i p hi hp
    rw [createBMP_getD_row img i (img.width * 3 + p) hi
      (by unfold rowSize; omega)]
    exact rowBytes_getD_padding img.data img.width _ p hp

/-- Witness for C4's theorem: the 2×2 image; the byte at offset 54
(bottom row, first pixel, Blue) is the blue component of pixel
(x = 0, y = 1). -/
theorem createBMP_layout_witness :
    (createBMP ⟨2, 2, [0xF800, 0x07E0, 0x001F, 0xFFFF], []⟩).getD
        (54 + (2 - 1 - 1) * rowSize 2 + 3 * 0) 0
      = (rgb565ToRgb
          ((⟨2, 2, [0xF800, 0x07E0, 0x001F, 0xFFFF], []⟩ : ImageData).data.getD
            (1 * 2 + 0) 0)).2.2 :=
  ((createBMP_layout ⟨2, 2, [0xF800, 0x07E0, 0x001F, 0xFFFF], []⟩
      (by decide) (by decide)).2.1 1 0 (by decide) (by decide) (by decide)).1

/-- C9: for an ImageData whose data is shorter than width*height, the
encoder still produces the full-size output (no failure) and every
missing trailing pixel (index ≥ data.length) is written as pure black
(0,0,0). -/
theorem createBMP_missing_pixels_black (img : ImageData)
    (hshort : img.data.length < img.width * img.height) :
    (createBMP img).length = 54 + rowSize img.width * img.height
    ∧ (∀ y x, y < img.height → x < img.width →
        img.data.length ≤ y * img.width + x →
        (createBMP img).getD
            (54 + (img.height - 1 - y) * rowSize img.width + 3 * x) 0 = 0
        ∧ (createBMP img).getD
            (54 + (img.height - 1 - y) * rowSize img.width + 3 * x + 1) 0 = 0
        ∧ (createBMP img).getD
            (54 + (img.height - 1 - y) * rowSize img.width + 3 * x + 2) 0 = 0) := by
  refine ⟨length_createBMP img, ?_⟩
  intro y x hy hx hmiss
  have h0 : 54 + (img.height - 1 - y) * rowSize img.width + 3 * x =
      54 + (img.height - 1 - y) * rowSize img.width + (3 * x + 0) := by ring
  have h1 : 54 + (img.height - 1 - y) * rowSize img.width + 3 * x + 1 =
      54 + (img.height - 1 - y) * rowSize img.width + (3 * x + 1) := by ring
  have h2 : 54 + (img.height - 1 - y) * rowSize img.width + 3 * x + 2 =
      54 + (img.height - 1 - y) * rowSize img.width + (3 * x + 2) := by ring
  rw [h2, h1, h0,
    createBMP_pixel_byte img y x 0 hy hx (by omega),
    createBMP_pixel_byte img y x 1 hy hx (by omega),
    createBMP_pixel_byte img y x 2 hy hx (by omega)]
  unfold pixelBytes
  rw [if_neg (by omega)]
  exact ⟨rfl, rfl, rfl⟩

/-- Witness for C9's theorem: a 2×2 image with only 3 pixels of data;
the last pixel (x = 1, y = 1) is encoded as black. -/
theorem createBMP_missing_pixels_black_witness :
    (createBMP ⟨2, 2, [0xF800, 0x07E0, 0x001F], []⟩).getD
        (54 + (2 - 1 - 1) * rowSize 2 + 3 * 1) 0 = 0 :=
  ((createBMP_missing_pixels_black ⟨2, 2, [0xF800, 0x07E0, 0x001F], []⟩
      (by decide)).2 1 1 (by decide) (by decide) (by decide)).1

/-! ## HexTokenExtractor and HexValueParser
(`parseHexFile`, HexToImageConverter.tsx lines 30-100)

The regex tiers are modelled as deterministic scanners over `List Char`.
Each scanner mirrors its regex: the character classes below are the
regex classes, and greedy maximal-munch runs are sound here because in
every pattern the character class of a run is disjoint from the
character that must follow it. -/

/-- The regex class `[0-9a-fA-F]`. -/
def isHexDigitChar (c : Char) : Bool :=
  (48 ≤ c.toNat && c.toNat ≤ 57) ||
  (97 ≤ c.toNat && c.toNat ≤ 102) ||
  (65 ≤ c.toNat && c.toNat ≤ 70)

/-- The regex class `\d`. -/
def isDigitChar (c : Char) : Bool := 48 ≤ c.toNat && c.toNat ≤ 57

/-- The regex class `\w` = `[A-Za-z0-9_]`. -/
def isWordChar (c : Char) : Bool :=
  (65 ≤ c.toNat && c.toNat ≤ 90) ||
  (97 ≤ c.toNat && c.toNat ≤ 122) ||
  (48 ≤ c.toNat && c.toNat ≤ 57) ||
  c.toNat == 95

/-- The regex class `\s` (JavaScript whitespace, including the Unicode
space characters). -/
def isJsSpace (c : Char) : Bool :=
  c.toNat ∈ [9, 10, 11, 12, 13, 32, 160, 0x1680,
    0x2000, 0x2001, 0x2002, 0x2003, 0x2004, 0x2005, 0x2006, 0x2007,
    0x2008, 0x2009, 0x200A, 0x2028, 0x2029, 0x202F, 0x205F, 0x3000, 0xFEFF]

/-- The class `[,\s\n\r]` used by the fallback split (newline and
carriage return are already in `\s`). -/
def isSepChar (c : Char) : Bool := c = ',' || isJsSpace c

/-- Numeric value of one hex digit. -/
def hexDigitVal (c : Char) : Nat :=
  if 48 ≤ c.toNat ∧ c.toNat ≤ 57 then c.toNat - 48
  else if 97 ≤ c.toNat ∧ c.toNat ≤ 102 then c.toNat - 87
  else if 65 ≤ c.toNat ∧ c.toNat ≤ 70 then c.toNat - 55
  else 0

/-- `parseInt` base 16 on a list of hex digits (never NaN for the
non-empty digit lists produced by the scanners). -/
def hexVal (ds : List Char) : Nat :=
  ds.foldl (fun acc c => acc * 16 + hexDigitVal c) 0

lemma length_dropWhile_le (p : Char → Bool) (l : List Char) :
    (l.dropWhile p).length ≤ l.length := by
  induction l with
  | nil => simp
  | cons c cs ih =>
    by_cases h : p c
    · rw [List.dropWhile_cons_of_pos h]; exact Nat.le_succ_of_le ih
    · rw [List.dropWhile_cons_of_neg (by simp [h])]

/-- Bounded greedy run: up to `n` leading characters satisfying `p`,
and the remaining input (models the quantifier `{1,4}`). -/
def takeUpTo (p : Char → Bool) : Nat → List Char → List Char × List Char
  | _, [] => ([], [])
  | 0, l => ([], l)
  | n + 1, c :: cs =>
    if p c then
      let r := takeUpTo p n cs
      (c :: r.1, r.2)
    else ([], c :: cs)

lemma takeUpTo_snd_length_le (p : Char → Bool) :
    ∀ (n : Nat) (l : List Char), (takeUpTo p n l).2.length ≤ l.length := by
  intro n l
  induction l generalizing n with
  | nil => cases n <;> simp [takeUpTo]
  | cons c cs ih =>
    cases n with
    | zero => simp [takeUpTo]
    | succ m =>
      by_cases h : p c
      · simp only [takeUpTo, h, if_true, List.length_cons]
        exact Nat.le_succ_of_le (ih m)
      · simp [takeUpTo, h]

/-- Extraction tier 3, the global scan `/0x[0-9a-fA-F]+/g`, driven by
explicit fuel (one unit per scan position) so the kernel can evaluate
it: every `0x`-prefixed maximal hex token, in order of appearance;
after a match the scan resumes after it, after a failed `0x` the scan
resumes one character later. -/
def allHexTokensF : Nat → List Char → List (List Char)
  | 0, _ => []
  | _ + 1, [] => []
  | fuel + 1, c0 :: tail =>
    if c0 = '0' then
      match tail with
      | c1 :: rest =>
        if c1 = 'x' then
          let ds := rest.takeWhile isHexDigitChar
          if ds.isEmpty then allHexTokensF fuel tail
          else ('0' :: 'x' :: ds) :: allHexTokensF fuel (rest.dropWhile isHexDigitChar)
        else allHexTokensF fuel tail
      | [] => allHexTokensF fuel tail
    else allHexTokensF fuel tail

/-- The tier-3 scan with enough fuel for the whole input. -/
def allHexTokens (l : List Char) : List (List Char) := allHexTokensF l.length l

/-- Parsing strategy 1, the global scan `/0x[0-9a-fA-F]{1,4}/gi` with
explicit fuel: `0x`/`0X`-prefixed tokens of at most four hex digits; a
fifth hex digit is left in the input for the next scan step. -/
def primaryHexTokensF : Nat → List Char → List (List Char)
  | 0, _ => []
  | _ + 1, [] => []
  | fuel + 1, c0 :: tail =>
    if c0 = '0' then
      match tail with
      | c :: rest =>
        if c = 'x' ∨ c = 'X' then
          let r := takeUpTo isHexDigitChar 4 rest
          if r.1.isEmpty then primaryHexTokensF fuel tail
          else ('0' :: c :: r.1) :: primaryHexTokensF fuel r.2
        else primaryHexTokensF fuel tail
      | [] => primaryHexTokensF fuel tail
    else primaryHexTokensF fuel tail

/-- The strategy-1 scan with enough fuel for the whole input. -/
def primaryHexTokens (l : List Char) : List (List Char) :=
  primaryHexTokensF l.length l

/-- Parsing strategy 1 values: `parseInt(match, 16)` of each token,
kept when in `[0, 0xFFFF]` (the `!isNaN` and `≥ 0` checks of the code
cannot fail on these tokens). -/
def primaryValues (block : List Char) : List Nat :=
  ((primaryHexTokens block).map (fun t => hexVal (t.drop 2))).filter
    (fun v => v ≤ 0xFFFF)

/-- The split on `/[,\s\n\r]+/` followed by `trim` and the non-empty
filter, with explicit fuel: the maximal non-separator runs (tokens
contain no whitespace, so `trim` is the identity on them). -/
def splitValueTokensF : Nat → List Char → List (List Char)
  | 0, _ => []
  | _ + 1, [] => []
  | fuel + 1, c :: cs =>
    if isSepChar c then splitValueTokensF fuel cs
    else (c :: cs.takeWhile (fun d => !isSepChar d)) ::
      splitValueTokensF fuel (cs.dropWhile (fun d => !isSepChar d))

/-- The fallback split with enough fuel for the whole input. -/
def splitValueTokens (l : List Char) : List (List Char) :=
  splitValueTokensF l.length l

/-- Parsing strategy 2 (fallback): strip every non-hex-digit character
from each token; parse tokens whose cleaned form has 3–4 digits; keep
values in `[0, 0xFFFF]`. -/
def fallbackValues (block : List Char) : List Nat :=
  (splitValueTokens block).filterMap (fun tok =>
    let clean := tok.filter isHexDigitChar
    if 3 ≤ clean.length ∧ clean.length ≤ 4 then
      if hexVal clean ≤ 0xFFFF then some (hexVal clean) else none
    else none)

/-- `HexValueParser.parse`: strategy 1, then strategy 2 only when
strategy 1 produced nothing. -/
def parseValues (block : List Char) : List Nat :=
  let direct := primaryValues block
  if direct.isEmpty then fallbackValues block else direct

/-- Anchored match of a literal; returns the rest of the input. -/
def matchLiteral : List Char → List Char → Option (List Char)
  | [], l => some l
  | _ :: _, [] => none
  | c :: cs, d :: ds => if c = d then matchLiteral cs ds else none

/-- The optional `(?:const\s+)?` prefix: consumed only when `const` is
followed by at least one whitespace character (otherwise the optional
group matches empty, and the following literal is tried in place). -/
def skipConst (l : List Char) : List Char :=
  match l with
  | 'c' :: 'o' :: 'n' :: 's' :: 't' :: rest =>
    if (rest.takeWhile isJsSpace).isEmpty then l else rest.dropWhile isJsSpace
  | _ => l

/-- Anchored match of the tier-1 declaration regex
`(?:const\s+)?uint16_t\s+(\w+)\s*\[\s*(?:\d+)?\s*\]\s*=\s*\{([^}]+)\}`
at the start of the input, returning the two capture groups
(identifier, brace contents). Each greedy run is maximal; this matches
the regex because every run's class is disjoint from the required next
character. -/
def matchDeclAt (l : List Char) : Option (List Char × List Char) :=
  match matchLiteral ("uint16_t".toList) (skipConst l) with
  | none => none
  | some l2 =>
    if (l2.takeWhile isJsSpace).isEmpty then none
    else
      let l3 := l2.dropWhile isJsSpace
      let name := l3.takeWhile isWordChar
      if name.isEmpty then none
      else
        let l5 := (l3.dropWhile isWordChar).dropWhile isJsSpace
        match l5 with
        | '[' :: l6 =>
          let l8 := ((l6.dropWhile isJsSpace).dropWhile isDigitChar).dropWhile isJsSpace
          match l8 with
          | ']' :: l9 =>
            match l9.dropWhile isJsSpace with
            | '=' :: l11 =>
              match l11.dropWhile isJsSpace with
              | '{' :: l13 =>
                let body := l13.takeWhile (fun c => c != '}')
                if body.isEmpty then none
                else
                  match l13.dropWhile (fun c => c != '}') with
                  | '}' :: _ => some (name, body)
                  | _ => none
              | _ => none
            | _ => none
          | _ => none
        | _ => none

/-- Extraction tier 1: leftmost position at which the declaration
regex matches. -/
def findDecl : List Char → Option (List Char × List Char)
  | [] => none
  | c :: cs =>
    match matchDeclAt (c :: cs) with
    | some r => some r
    | none => findDecl cs

/-- Whether the input contains `0x` followed by a hex digit (the
condition for the tier-2 group `[^}]*(?:0x[0-9a-fA-F]+[^}]*)+` to be
satisfiable on a brace-free block). -/
def hasHexToken : List Char → Bool
  | '0' :: 'x' :: c :: rest => isHexDigitChar c || hasHexToken ('x' :: c :: rest)
  | _ :: rest => hasHexToken rest
  | [] => false

/-- Extraction tier 2, `/\{([^}]*(?:0x[0-9a-fA-F]+[^}]*)+)\}/` on the
newline-normalized text: the first `{` that is followed by a `}` such
that the text between them contains a `0x`-plus-hex-digit token;
returns that text. -/
def findBraceBlock : List Char → Option (List Char)
  | [] => none
  | '{' :: rest =>
    let body := rest.takeWhile (fun c => c != '}')
    match rest.dropWhile (fun c => c != '}') with
    | '}' :: _ =>
      if hasHexToken body then some body else findBraceBlock rest
    | _ => findBraceBlock rest
  | _ :: rest => findBraceBlock rest

/-- `content.replace(/\n/g, ' ').replace(/\r/g, ' ')`. -/
def normalizeNewlines (l : List Char) : List Char :=
  l.map (fun c => if c = '\n' ∨ c = '\r' then ' ' else c)

/-- The two typed failures of the pipeline. -/
inductive ParseError where
  | noHexValuesFound
  | noValidHexValues
deriving DecidableEq

/-- `HexTokenExtractor.extract`: tier 1, then tier 2 on the normalized
text, then tier 3; `noHexValuesFound` only when all three fail. -/
def extract (content : List Char) : Except ParseError (List Char × List Char) :=
  match findDecl content with
  | some (name, body) => Except.ok (name, body)
  | none =>
    match findBraceBlock (normalizeNewlines content) with
    | some body => Except.ok (("parsed_array".toList), body)
    | none =>
      let toks := allHexTokens content
      if toks.isEmpty then Except.error ParseError.noHexValuesFound
      else Except.ok (("extracted_hex_values".toList),
        List.intercalate (", ".toList) toks)

/-- `parseHexFile`: extraction, value parsing, dimension inference;
`noValidHexValues` when the extracted block parses to no values. -/
def parseHexFile (content : List Char) : Except ParseError ImageData :=
  match extract content with
  | Except.error e => Except.error e
  | Except.ok (arrayName, hexDataString) =>
    let hexValues := parseValues hexDataString
    if hexValues.isEmpty then Except.error ParseError.noValidHexValues
    else
      let dims := resolveDims hexValues.length
      Except.ok ⟨dims.1, dims.2, hexValues, arrayName⟩

instance {ε α : Type} [DecidableEq ε] [DecidableEq α] :
    DecidableEq (Except ε α) := fun a b =>
  match a, b with
  | Except.error e, Except.error f =>
    if h : e = f then isTrue (by rw [h]) else
      isFalse (fun hc => h (Except.error.inj hc))
  | Except.ok x, Except.ok y =>
    if h : x = y then isTrue (by rw [h]) else
      isFalse (fun hc => h (Except.ok.inj hc))
  | Except.error _, Except.ok _ => isFalse (fun hc => Except.noConfusion hc)
  | Except.ok _, Except.error _ => isFalse (fun hc => Except.noConfusion hc)

/-! ### Helper lemmas for the parser claims -/

lemma hexDigitVal_le (c : Char) : hexDigitVal c ≤ 15 := by
  unfold hexDigitVal
  split_ifs <;> omega

lemma hexVal_foldl_lt (ds : List Char) :
    ∀ a : Nat, ds.foldl (fun acc c => acc * 16 + hexDigitVal c) a <
      (a + 1) * 16 ^ ds.length := by
  induction ds with
  | nil => intro a; simp
  | cons c cs ih =>
    intro a
    simp only [List.foldl_cons, List.length_cons]
    calc cs.foldl (fun acc c => acc * 16 + hexDigitVal c) (a * 16 + hexDigitVal c)
        < (a * 16 + hexDigitVal c + 1) * 16 ^ cs.length := ih _
      _ ≤ ((a + 1) * 16) * 16 ^ cs.length := by
          have h1 : hexDigitVal c ≤ 15 := hexDigitVal_le c
          exact Nat.mul_le_mul_right _ (by omega)
      _ = (a + 1) * 16 ^ (cs.length + 1) := by ring

/-- The base-16 value of `k` digits is below `16^k`. -/
lemma hexVal_lt (ds : List Char) : hexVal ds < 16 ^ ds.length := by
  simpa [hexVal] using hexVal_foldl_lt ds 0

lemma takeUpTo_fst_length_le (p : Char → Bool) :
    ∀ (n : Nat) (l : List Char), (takeUpTo p n l).1.length ≤ n := by
  intro n l
  induction l generalizing n with
  | nil => cases n <;> simp [takeUpTo]
  | cons c cs ih =>
    cases n with
    | zero => simp [takeUpTo]
    | succ m =>
      by_cases h : p c
      · simp only [takeUpTo, h, if_true, List.length_cons]
        exact Nat.succ_le_succ (ih m)
      · simp [takeUpTo, h]

lemma takeUpTo_zero (p : Char → Bool) (l : List Char) :
    takeUpTo p 0 l = ([], l) := by
  cases l <;> rfl

/-- On an input whose first `n` characters all satisfy `p`, the bounded
run takes exactly `n` characters. -/
lemma takeUpTo_all_sat (p : Char → Bool) :
    ∀ (n : Nat) (ds rest : List Char), n ≤ ds.length →
      (∀ c ∈ ds, p c = true) →
      takeUpTo p n (ds ++ rest) = (ds.take n, ds.drop n ++ rest) := by
  intro n
  induction n with
  | zero => intro ds rest _ _; simp [takeUpTo_zero]
  | succ m ih =>
    intro ds rest h hall
    cases ds with
    | nil => simp at h
    | cons d ds2 =>
      simp only [List.cons_append, takeUpTo,
        hall d (List.mem_cons_self _ _), if_true, List.append_eq]
      rw [ih ds2 rest (by simpa using h)
        (fun c hc => hall c (List.mem_cons_of_mem _ hc))]
      simp

lemma primaryHexTokensF_zero (l : List Char) : primaryHexTokensF 0 l = [] := by
  cases l <;> rfl

lemma primaryHexTokensF_nil (fuel : Nat) :
    primaryHexTokensF fuel ([] : List Char) = [] := by
  cases fuel <;> rfl

/-- One scan step of strategy 1 at a `0`. -/
lemma primaryHexTokensF_step (fuel : Nat) (c : Char) (rest : List Char) :
    primaryHexTokensF (fuel + 1) ('0' :: c :: rest) =
      (if c = 'x' ∨ c = 'X' then
        if (takeUpTo isHexDigitChar 4 rest).1.isEmpty then
          primaryHexTokensF fuel (c :: rest)
        else ('0' :: c :: (takeUpTo isHexDigitChar 4 rest).1) ::
          primaryHexTokensF fuel (takeUpTo isHexDigitChar 4 rest).2
      else primaryHexTokensF fuel (c :: rest)) := rfl

/-- One scan step of strategy 1 at a character other than `0`. -/
lemma primaryHexTokensF_step_other (fuel : Nat) (c0 : Char) (tail : List Char)
    (h : ¬ c0 = '0') :
    primaryHexTokensF (fuel + 1) (c0 :: tail) = primaryHexTokensF fuel tail := by
  rw [primaryHexTokensF.eq_def]
  dsimp only
  rw [if_neg h]

/-- The strategy-1 scan does not depend on the fuel, as long as there
is at least one unit per input character. -/
lemma primaryHexTokensF_congr :
    ∀ (f1 : Nat) (l : List Char) (f2 : Nat), l.length ≤ f1 → l.length ≤ f2 →
      primaryHexTokensF f1 l = primaryHexTokensF f2 l := by
  intro f1
  induction f1 with
  | zero =>
    intro l f2 h1 _
    have hb : l = [] := by
      cases l with
      | nil => rfl
      | cons a b => simp at h1
    subst hb
    rw [primaryHexTokensF_nil, primaryHexTokensF_nil]
  | succ m ih =>
    intro l f2 h1 h2
    cases l with
    | nil => rw [primaryHexTokensF_nil, primaryHexTokensF_nil]
    | cons c0 tail =>
      obtain ⟨k, rfl⟩ : ∃ k, f2 = k + 1 := by
        cases f2 with
        | zero => simp at h2
        | succ k => exact ⟨k, rfl⟩
      simp only [List.length_cons] at h1 h2
      by_cases h0 : c0 = '0'
      · subst h0
        cases tail with
        | nil =>
          rw [primaryHexTokensF, primaryHexTokensF]
          rw [if_pos rfl, if_pos rfl]
          rw [primaryHexTokensF_nil, primaryHexTokensF_nil]
        | cons c1 rest =>
          simp only [List.length_cons] at h1 h2
          rw [primaryHexTokensF_step, primaryHexTokensF_step]
          by_cases hx : c1 = 'x' ∨ c1 = 'X'
          · rw [if_pos hx, if_pos hx]
            by_cases he : (takeUpTo isHexDigitChar 4 rest).1.isEmpty
            · rw [if_pos he, if_pos he]
              exact ih (c1 :: rest) k (by simp; omega) (by simp; omega)
            · rw [if_neg he, if_neg he]
              have hr := takeUpTo_snd_length_le isHexDigitChar 4 rest
              rw [ih _ k (by omega) (by omega)]
          · rw [if_neg hx, if_neg hx]
            exact ih (c1 :: rest) k (by simp; omega) (by simp; omega)
      · rw [primaryHexTokensF_step_other m c0 tail h0,
          primaryHexTokensF_step_other k c0 tail h0]
        exact ih tail k (by omega) (by omega)

/-- Any sufficient fuel computes the strategy-1 scan. -/
lemma primaryHexTokensF_eq (f : Nat) (l : List Char) (h : l.length ≤ f) :
    primaryHexTokensF f l = primaryHexTokens l :=
  primaryHexTokensF_congr f l l.length h (le_refl _)

/-- Every token of parsing strategy 1 carries at most four digits
after its two prefix characters. -/
lemma primaryHexTokensF_digits_le :
    ∀ (fuel : Nat) (bl : List Char),
      ∀ t ∈ primaryHexTokensF fuel bl, (t.drop 2).length ≤ 4 := by
  intro fuel
  induction fuel with
  | zero =>
    intro bl t ht
    rw [primaryHexTokensF_zero] at ht
    cases ht
  | succ m ih =>
    intro bl t ht
    cases bl with
    | nil =>
      rw [primaryHexTokensF_nil] at ht
      cases ht
    | cons c0 tail =>
      by_cases h0 : c0 = '0'
      · subst h0
        cases tail with
        | nil =>
          rw [primaryHexTokensF, if_pos rfl, primaryHexTokensF_nil] at ht
          cases ht
        | cons c1 rest =>
          rw [primaryHexTokensF_step] at ht
          by_cases hx : c1 = 'x' ∨ c1 = 'X'
          · rw [if_pos hx] at ht
            by_cases he : (takeUpTo isHexDigitChar 4 rest).1.isEmpty
            · rw [if_pos he] at ht
              exact ih _ t ht
            · rw [if_neg he] at ht
              rcases List.mem_cons.mp ht with rfl | hmem
              · simpa using takeUpTo_fst_length_le isHexDigitChar 4 rest
              · exact ih _ t hmem
          · rw [if_neg hx] at ht
            exact ih _ t ht
      · rw [primaryHexTokensF_step_other m c0 tail h0] at ht
        exact ih tail t ht

/-- The digit bound for the fully fuelled scan. -/
lemma primaryHexTokens_digits_le (block : List Char) :
    ∀ t ∈ primaryHexTokens block, (t.drop 2).length ≤ 4 :=
  primaryHexTokensF_digits_le block.length block

/-! ### Claim theorems: C7, C8, C10 -/

/-- C7 (counterexample): the input `uint16_t a[] = \x7b1234\x7d`
contains zero `0x`-prefixed tokens, yet the pipeline does not fail
with `noHexValuesFound` — tier 1 matches the declaration and the
fallback parsing strategy recovers the value 0x1234 — refuting the
claim's "exactly when" at this input. -/
theorem parseHexFile_noHex_counterexample :
    allHexTokens (("uint16_t a[] = \x7b1234\x7d").toList) = [] ∧
    parseHexFile (("uint16_t a[] = \x7b1234\x7d").toList) ≠
      Except.error ParseError.noHexValuesFound := by
  constructor
  · decide
  · decide

/-- C7 (amended): the pipeline fails with `noHexValuesFound` iff all
three extraction tiers fail (which implies — but is not implied by —
the source text containing zero `0x`-prefixed tokens); it fails with
`noValidHexValues` iff extraction produced a block on which both
parsing strategies yield no value; and on either failure no ImageData
is produced. -/
theorem parseHexFile_error_conditions (content : List Char) :
    (parseHexFile content = Except.error ParseError.noHexValuesFound →
      allHexTokens content = [])
    ∧ (parseHexFile content = Except.error ParseError.noHexValuesFound ↔
        findDecl content = none
        ∧ findBraceBlock (normalizeNewlines content) = none
        ∧ allHexTokens content = [])
    ∧ (parseHexFile content = Except.error ParseError.noValidHexValues ↔
        ∃ name body, extract content = Except.ok (name, body) ∧
          parseValues body = [])
    ∧ (∀ e img, parseHexFile content = Except.error e →
        parseHexFile content ≠ Except.ok img) := by
  have hlast : ∀ e img, parseHexFile content = Except.error e →
      parseHexFile content ≠ Except.ok img := by
    intro e img h1 h2
    rw [h1] at h2
    exact Except.noConfusion h2
  cases hex : extract content with
  | error e =>
    have hcase : findDecl content = none
        ∧ findBraceBlock (normalizeNewlines content) = none
        ∧ allHexTokens content = []
        ∧ e = ParseError.noHexValuesFound := by
      unfold extract at hex
      cases hfd : findDecl content with
      | some r =>
        obtain ⟨n, b⟩ := r
        rw [hfd] at hex
        exact Except.noConfusion hex
      | none =>
        rw [hfd] at hex
        cases hfb : findBraceBlock (normalizeNewlines content) with
        | some b =>
          rw [hfb] at hex
          exact Except.noConfusion hex
        | none =>
          rw [hfb] at hex
          by_cases ht : (allHexTokens content).isEmpty
          · rw [if_pos ht] at hex
            exact ⟨rfl, rfl, List.isEmpty_iff.mp ht,
              (Except.error.inj hex).symm⟩
          · rw [if_neg ht] at hex
            exact Except.noConfusion hex
    have hrun : parseHexFile content = Except.error e := by
      unfold parseHexFile
      rw [hex]
    refine ⟨?_, ?_, ?_, hlast⟩
    · intro _; exact hcase.2.2.1
    · rw [hrun, hcase.2.2.2]
      exact iff_of_true rfl ⟨hcase.1, hcase.2.1, hcase.2.2.1⟩
    · rw [hrun, hcase.2.2.2]
      constructor
      · intro hcontra
        exact absurd (Except.error.inj hcontra) (by intro h; cases h)
      · rintro ⟨n, b, hok, -⟩
        exact Except.noConfusion hok
  | ok r =>
    obtain ⟨n, b⟩ := r
    have hnotall : ¬ (findDecl content = none
        ∧ findBraceBlock (normalizeNewlines content) = none
        ∧ allHexTokens content = []) := by
      rintro ⟨h1, h2, h3⟩
      unfold extract at hex
      rw [h1, h2] at hex
      rw [if_pos (List.isEmpty_iff.mpr h3)] at hex
      exact Except.noConfusion hex
    by_cases hv : (parseValues b).isEmpty
    · have hrun : parseHexFile content = Except.error ParseError.noValidHexValues := by
        unfold parseHexFile
        rw [hex]
        simp only [hv, if_true]
      refine ⟨?_, ?_, ?_, hlast⟩
      · intro hcontra
        rw [hrun] at hcontra
        exact absurd (Except.error.inj hcontra) (by intro h; cases h)
      · rw [hrun]
        refine iff_of_false ?_ hnotall
        intro hcontra
        exact absurd (Except.error.inj hcontra) (by intro h; cases h)
      · rw [hrun]
        exact iff_of_true rfl ⟨n, b, rfl, List.isEmpty_iff.mp hv⟩
    · have hrun : parseHexFile content =
          Except.ok ⟨(resolveDims (parseValues b).length).1,
            (resolveDims (parseValues b).length).2, parseValues b, n⟩ := by
        unfold parseHexFile
        rw [hex]
        simp only [Bool.not_eq_true] at hv
        simp only [hv, Bool.false_eq_true, if_false]
      refine ⟨?_, ?_, ?_, hlast⟩
      · intro hcontra
        rw [hrun] at hcontra
        exact absurd hcontra (fun h => Except.noConfusion h)
      · rw [hrun]
        exact iff_of_false (fun h => Except.noConfusion h) hnotall
      · rw [hrun]
        refine iff_of_false (fun h => Except.noConfusion h) ?_
        rintro ⟨n2, b2, hok, hempty⟩
        have heq := Except.ok.inj hok
        have hb : b = b2 := congrArg Prod.snd heq
        rw [← hb] at hempty
        rw [hempty] at hv
        simp at hv

/-- Witness for C7's theorem: on `hello world` all tiers fail, so the
pipeline fails with `noHexValuesFound`. -/
theorem parseHexFile_error_conditions_witness :
    parseHexFile (("hello world").toList) =
      Except.error ParseError.noHexValuesFound :=
  (parseHexFile_error_conditions (("hello world").toList)).2.1.mpr
    ⟨by decide, by decide, by decide⟩

/-- C8: extraction tier 1 wins whenever the strict declaration regex
matches anywhere in the text: the result is that declaration's
identifier and brace contents, and later tiers (including the
whole-document scan of loose `0x` tokens) are never consulted.
Concretely, on a file holding both a `const uint16_t foo[12]`
declaration and loose 0xDEAD / 0xBEEF tokens, the returned name is
`foo` and the block is the declaration's brace contents. -/
theorem extract_tier1_wins :
    (∀ t name body, findDecl t = some (name, body) →
      extract t = Except.ok (name, body))
    ∧ extract (("// stray 0xDEAD\nconst uint16_t foo[12] = \x7b 0xF800, 0x07E0 \x7d;\n0xBEEF").toList)
        = Except.ok ((("foo").toList), ((" 0xF800, 0x07E0 ").toList)) := by
  constructor
  · intro t name body h
    unfold extract
    rw [h]
  · decide

/-- Witness for C8's theorem at a small concrete declaration. -/
theorem extract_tier1_wins_witness :
    extract (("uint16_t bar[] = \x7b0x1\x7d").toList) =
      Except.ok ((("bar").toList), (("0x1").toList)) :=
  extract_tier1_wins.1 _ _ _ (by decide)

/-- C10: a token of `0x` followed by five or more hex digits is not
discarded: the primary pattern consumes exactly its first four digits
as a token (leaving the rest of the digits in the input), concretely
`0x12345` contributes the truncated value 0x1234; and every value the
primary strategy maps a token to is already ≤ 0xFFFF, so the explicit
range filter keeps everything (the filtered list equals the unfiltered
one). -/
theorem primaryParse_truncation (ds rest : List Char) (h5 : 5 ≤ ds.length)
    (hhex : ∀ c ∈ ds, isHexDigitChar c = true) :
    primaryHexTokens ('0' :: 'x' :: (ds ++ rest)) =
        ('0' :: 'x' :: ds.take 4) :: primaryHexTokens (ds.drop 4 ++ rest)
    ∧ primaryValues (("0x12345").toList) = [0x1234]
    ∧ ∀ block, ((primaryHexTokens block).map (fun t => hexVal (t.drop 2)))
        = primaryValues block := by
  have htake : (ds.take 4).length = 4 := by
    simp only [List.length_take]
    omega
  have hne : ¬ (ds.take 4).isEmpty = true := by
    rw [List.isEmpty_iff]
    intro hc
    rw [hc] at htake
    simp at htake
  refine ⟨?_, by decide, ?_⟩
  · unfold primaryHexTokens
    have hlen : ('0' :: 'x' :: (ds ++ rest)).length = (ds ++ rest).length + 1 + 1 := by
      simp
    rw [hlen, primaryHexTokensF_step]
    rw [if_pos (Or.inl rfl)]
    rw [takeUpTo_all_sat isHexDigitChar 4 ds rest (by omega) hhex]
    dsimp only
    rw [if_neg hne]
    congr 1
    apply primaryHexTokensF_congr
    · simp only [List.length_append, List.length_drop]
      omega
    · exact le_refl _
  · intro block
    unfold primaryValues
    rw [List.filter_eq_self.mpr]
    intro v hv
    rcases List.mem_map.mp hv with ⟨t, ht, rfl⟩
    have hd4 : (t.drop 2).length ≤ 4 := primaryHexTokens_digits_le block t ht
    have hlt : hexVal (t.drop 2) < 16 ^ (t.drop 2).length := hexVal_lt (t.drop 2)
    have h16 : (16 : Nat) ^ (t.drop 2).length ≤ 16 ^ 4 :=
      Nat.pow_le_pow_right (by omega) hd4
    simp only [decide_eq_true_eq]
    omega

/-- Witness for C10's theorem on the digits `12345`. -/
theorem primaryParse_truncation_witness :
    primaryHexTokens ('0' :: 'x' :: ((("12345").toList) ++ [])) =
        ('0' :: 'x' :: (("12345").toList).take 4) ::
          primaryHexTokens ((("12345").toList).drop 4 ++ []) :=
  (primaryParse_truncation (("12345").toList) [] (by decide) (by decide)).1

end HexToImage
